import Mathlib

/-!
# Verification of the InterChain Matchmaker orchestration pipeline

Shallow embedding of the repository's four-stage orchestration pipeline
(registry loading, capability probing, capability matching, negotiation,
workflow execution) and proofs of the specification claims about it.

Network effects are modelled by oracle functions: every remote call site
receives its outcomes from an explicit argument (indexed by agent/step and
attempt number), so every definition is a total, executable function of the
code's inputs plus the observed network trace.  Wall-clock durations
(`durationMs` fields, backoff sleeps) and opaque `meta` records are not
modelled: they never influence control flow.
-/

/-! ## JSON response model

The agents' JSON replies are only ever inspected through a `status` field,
an `output` field, and (for negotiation) `accept`/`accepted` flags; all other
content is opaque and kept in `rest`.  `Option JsonBody` models a parsed
JSON value that may be `null`.
-/

inductive JsonBody where
  | mk (status : Option String) (output : Option JsonBody) (rest : String)

def JsonBody.status : JsonBody → Option String
  | .mk s _ _ => s

def JsonBody.output : JsonBody → Option JsonBody
  | .mk _ o _ => o

def JsonBody.rest : JsonBody → String
  | .mk _ _ r => r

/-! ## Agent data model (src/tools/discoverAgents.ts `AgentInfo`)

The `meta` record is opaque and unused by any control flow; it is omitted.
-/

structure AgentInfo where
  id : String
  name : Option String
  endpoint : String
  capabilities : List String
  deriving DecidableEq

/-! ## Capability matcher (src/tools/matchCapabilities.ts) -/

structure MatchResult where
  step : String
  agent : AgentInfo
  deriving DecidableEq

/-- Inner loop of `matchCapabilities`: for each preferred id in order, look for
an agent with that id that supports the step (`agents.find(x => x.id === pref
&& x.capabilities.includes(step))`), stopping at the first hit. -/
def findPreferredAgent (agents : List AgentInfo) (step : String) : List String → Option AgentInfo
  | [] => none
  | pref :: rest =>
    match agents.find? (fun x => x.id == pref && x.capabilities.contains step) with
    | some a => some a
    | none => findPreferredAgent agents step rest

/-- Candidate selection for one step, as in the body of the `for (const step
of steps)` loop: the preferred-id loop when `preferAgentIds` is supplied, then
the first agent advertising the capability.  (The source's
`Array.isArray(a.capabilities)` guard is always true in the typed model.) -/
def selectCandidate (agents : List AgentInfo) (prefs : Option (List String)) (step : String) :
    Option AgentInfo :=
  let preferred :=
    match prefs with
    | some ps => findPreferredAgent agents step ps
    | none => none
  match preferred with
  | some a => some a
  | none => agents.find? (fun a => a.capabilities.contains step)

/-- Source `matchCapabilities(agents, steps, opts)`: one pass over `steps`, pushing a
`MatchResult` exactly when a candidate is found. -/
def matchCapabilities (agents : List AgentInfo) (steps : List String)
    (prefs : Option (List String)) : List MatchResult :=
  steps.filterMap (fun s => (selectCandidate agents prefs s).map (fun a => { step := s, agent := a }))

/-- Selection rule written from the specification's words: "(a) if a
preference list is supplied, the first preferred agent id whose capability set
contains the step's capability name wins; (b) otherwise, the first agent (in
population order) whose capability set contains the capability name wins."
Used only to be compared with `matchCapabilities`. -/
def specMatchSelect (agents : List AgentInfo) (prefs : Option (List String)) (step : String) :
    Option AgentInfo :=
  match prefs with
  | some ps =>
    match ps.find? (fun p => agents.any (fun x => x.id == p && x.capabilities.contains step)) with
    | some p => agents.find? (fun x => x.id == p && x.capabilities.contains step)
    | none => agents.find? (fun a => a.capabilities.contains step)
  | none => agents.find? (fun a => a.capabilities.contains step)

/-! ## Sequential workflow executor (src/unnamed/part_003, `executeWorkflow`)

One network attempt for a step either yields an HTTP response (status code
plus a parsed body, `null` when `res.json()` rejects) or a network error.
The oracle is indexed by step position, attempt number and the request
payload actually sent.
-/

inductive AttemptResult where
  | response (statusCode : Nat) (body : Option JsonBody)
  | netError (msg : String)

/-- Source `jsonBody && jsonBody.status === "DONE"`. -/
def bodyIsDone : Option JsonBody → Bool
  | some b => b.status == some "DONE"
  | none => false

/-- An attempt that is an HTTP response whose body does not carry the `"DONE"`
sentinel. -/
def isNonDoneResponse : AttemptResult → Bool
  | .response _ body => !(bodyIsDone body)
  | .netError _ => false

/-- An attempt that yields an accepted (`"DONE"`) response. -/
def isDoneAttempt : AttemptResult → Bool
  | .response _ body => bodyIsDone body
  | .netError _ => false

/-- Source `jsonBody.output ?? jsonBody` for a body known to satisfy `bodyIsDone`. -/
def doneOutput : Option JsonBody → JsonBody
  | some b => b.output.getD b
  | none => JsonBody.mk none none ""

/-- Mutable state of the per-step retry loop of part_003's `executeWorkflow`:
`success`, `lastError`, `out` (`none` = still `undefined`, `some none` = the
parsed body was `null`), `statusCode`, plus an attempt counter used as
call-count instrumentation. -/
structure StepState where
  success : Bool
  lastError : String
  out : Option (Option JsonBody)
  statusCode : Option Nat
  calls : Nat

/-- The `for (let attempt = 0; attempt <= options.retryAttempts; attempt++)`
loop: on a response, record the status code; a `"DONE"` body sets `success`
and breaks, anything else records `unexpected-response` and the body; a
network error records the message.  `fuel` is the number of attempts still
allowed. -/
def execAttemptsGo (behavior : Nat → AttemptResult) : Nat → Nat → StepState → StepState
  | _, 0, st => st
  | attempt, fuel + 1, st =>
    match behavior attempt with
    | .response code body =>
      if bodyIsDone body then
        { st with statusCode := some code, calls := st.calls + 1, success := true,
                  out := some (some (doneOutput body)) }
      else
        execAttemptsGo behavior (attempt + 1) fuel
          { st with statusCode := some code, calls := st.calls + 1,
                    lastError := "unexpected-response", out := some body }
    | .netError msg =>
      execAttemptsGo behavior (attempt + 1) fuel
        { st with lastError := msg, calls := st.calls + 1 }

/-- All attempts for one step, starting from the loop's initial state. -/
def runStepAttempts (behavior : Nat → AttemptResult) (retryAttempts : Nat) : StepState :=
  execAttemptsGo behavior 0 (retryAttempts + 1)
    { success := false, lastError := "", out := none, statusCode := none, calls := 0 }

/-- Log entry shape of part_003 (`ExecutionLogEntry`); `durationMs` is
wall-clock time and not modelled. -/
structure ExecutionLogEntry where
  step : String
  agentId : String
  success : Bool
  statusCode : Option Nat
  error : Option String
  output : Option (Option JsonBody)

/-- Result of part_003's `executeWorkflow`: either
`{success: false, error, logs, lastOutput}` or `{success: true, finalOutput, logs}`. -/
inductive WorkflowOutcome where
  | failed (error : String) (logs : List ExecutionLogEntry) (lastOutput : Option (Option JsonBody))
  | done (finalOutput : JsonBody) (logs : List ExecutionLogEntry)

def WorkflowOutcome.logs : WorkflowOutcome → List ExecutionLogEntry
  | .failed _ logs _ => logs
  | .done _ logs => logs

def WorkflowOutcome.isSuccess : WorkflowOutcome → Bool
  | .failed _ _ _ => false
  | .done _ _ => true

/-- Source `payload = out` after a successful step. -/
def pipedPayload (st : StepState) (payload : JsonBody) : JsonBody :=
  match st.out with
  | some (some b) => b
  | _ => payload

/-- The `logs.push({...})` record appended once per processed step. -/
def stepEntry (m : MatchResult) (st : StepState) : ExecutionLogEntry :=
  { step := m.step, agentId := m.agent.id, success := st.success,
    statusCode := st.statusCode,
    error := if st.success then none else some st.lastError,
    output := st.out }

/-- The `for (const m of matches)` loop of part_003's `executeWorkflow`.  The
second component of the result is call-count instrumentation: one entry per
step whose agent was actually called, holding the number of underlying
attempts for that step. -/
def executeWorkflowGo (behavior : Nat → Nat → JsonBody → AttemptResult) (retryAttempts : Nat) :
    Nat → JsonBody → List MatchResult → WorkflowOutcome × List Nat
  | _, payload, [] => (.done payload [], [])
  | i, payload, m :: rest =>
    let st := runStepAttempts (fun att => behavior i att payload) retryAttempts
    if st.success then
      match executeWorkflowGo behavior retryAttempts (i + 1) (pipedPayload st payload) rest with
      | (.done fin logs, counts) => (.done fin (stepEntry m st :: logs), st.calls :: counts)
      | (.failed err logs lastOut, counts) =>
        (.failed err (stepEntry m st :: logs) lastOut, st.calls :: counts)
    else
      (.failed ("Agent " ++ m.agent.id ++ " failed at step " ++ m.step) [stepEntry m st] st.out,
        [st.calls])

/-- part_003 `executeWorkflow(matches, initialPayload, opts)` with call-count
instrumentation.  (`matches` is a Lean keyword, hence `matchResults`.) -/
def executeWorkflow (behavior : Nat → Nat → JsonBody → AttemptResult)
    (matchResults : List MatchResult) (initialPayload : JsonBody) (retryAttempts : Nat) :
    WorkflowOutcome × List Nat :=
  executeWorkflowGo behavior retryAttempts 0 initialPayload matchResults

/-! ## Axios-based executor (src/icma/src/tools/executeWorkflow.ts,
`execute_workflow`)

One `axios.post` either resolves with `res.data` (an arbitrary JSON value,
possibly `null`) or rejects.  The oracle is indexed by step position.
Timeout configuration only affects when a call rejects and is folded into
the oracle.
-/

inductive AxiosResult where
  | ok (data : Option JsonBody)
  | err (msg : String)

structure EWStep where
  stepId : Nat
  role : String
  agent : AgentInfo
  deriving DecidableEq

structure EWOutput where
  agentId : String
  stepId : Nat
  status : String
  output : Option JsonBody
  error : Option String

inductive EWStatus where
  | OK
  | FAILED
  | PARTIAL
  deriving DecidableEq

structure ExecuteResult where
  status : EWStatus
  outputs : List EWOutput

/-- Source `data?.status || "UNKNOWN"` (an empty-string status is falsy in JS). -/
def jsStatusOf : Option JsonBody → String
  | some b =>
    match b.status with
    | some st => if st == "" then "UNKNOWN" else st
    | none => "UNKNOWN"
  | none => "UNKNOWN"

/-- Source `s.toUpperCase()`. -/
def jsToUpper (s : String) : String := s.map Char.toUpper

/-- Sequential branch of `execute_workflow`: one entry is pushed per call; a
rejected call pushes an `"ERROR"` entry and breaks, any resolved call (done
or not) pushes its entry and continues. -/
def executeSeqGo (behavior : Nat → AxiosResult) : Nat → List EWStep → List EWOutput
  | _, [] => []
  | i, s :: rest =>
    match behavior i with
    | .ok data =>
      { agentId := s.agent.id, stepId := s.stepId, status := jsStatusOf data,
        output := data.bind JsonBody.output, error := none } :: executeSeqGo behavior (i + 1) rest
    | .err msg =>
      [{ agentId := s.agent.id, stepId := s.stepId, status := "ERROR",
         output := none, error := some msg }]

/-- Parallel branch of `execute_workflow`: all calls are issued and every one
pushes an entry; under concurrency the push order is the completion order,
modelled here as workflow order (the claims never depend on it). -/
def executeParGo (behavior : Nat → AxiosResult) : Nat → List EWStep → List EWOutput
  | _, [] => []
  | i, s :: rest =>
    match behavior i with
    | .ok data =>
      { agentId := s.agent.id, stepId := s.stepId, status := jsStatusOf data,
        output := data.bind JsonBody.output, error := none } :: executeParGo behavior (i + 1) rest
    | .err msg =>
      { agentId := s.agent.id, stepId := s.stepId, status := "ERROR",
        output := none, error := some msg } :: executeParGo behavior (i + 1) rest

/-- Source `execute_workflow({workflow, parallel, timeoutMs})`.  The source also
computes a `failedCount` that does not influence the overall status; it is
omitted. -/
def execute_workflow (behavior : Nat → AxiosResult) (workflow : List EWStep)
    (parallel : Bool) : ExecuteResult :=
  let outputs := if parallel then executeParGo behavior 0 workflow else executeSeqGo behavior 0 workflow
  let successCount := (outputs.filter (fun o => jsToUpper o.status == "DONE")).length
  { status := if successCount == outputs.length then .OK
              else if successCount > 0 then .PARTIAL else .FAILED,
    outputs := outputs }

/-! ## Negotiation stage (src/tools/negotiateAgents.ts, part_001)

One `POST /negotiate` attempt either yields an HTTP response (status code and
a parsed body, `null` when `res.json()` rejects) or a network error/timeout.
-/

structure NegBody where
  status : Option String
  accepted : Option Bool
  deriving DecidableEq

inductive NegotiationAttempt where
  | response (statusCode : Nat) (body : Option NegBody)
  | netError (msg : String)

structure NegotiateResult where
  agentId : String
  accepted : Bool
  statusCode : Option Nat
  responseBody : Option (Option NegBody)
  error : Option String
  deriving DecidableEq

/-- Source `(jsonBody && (jsonBody.status === "ACCEPT" || jsonBody.status === "OK" ||
jsonBody.accepted === true)) || res.status === 200`. -/
def negotiationOk (statusCode : Nat) (body : Option NegBody) : Bool :=
  (match body with
   | some b => b.status == some "ACCEPT" || b.status == some "OK" || b.accepted == some true
   | none => false) || statusCode == 200

/-- Whether one attempt's outcome satisfies the acceptance test of
`negotiateAgents`. -/
def attemptOk : NegotiationAttempt → Bool
  | .response code body => negotiationOk code body
  | .netError _ => false

/-- Whether a negotiation attempt carries an explicit affirmative signal (an
accept status token or an explicit boolean accept flag) — the condition named
by the claim, independent of the bare HTTP status code. -/
def attemptHasAffirmativeSignal : NegotiationAttempt → Bool
  | .response _ (some b) =>
    b.status == some "ACCEPT" || b.status == some "OK" || b.accepted == some true
  | .response _ none => false
  | .netError _ => false

/-- Mutable state of `negotiateAgents`'s per-agent retry loop. -/
structure NegState where
  accepted : Bool
  lastError : Option String
  respBody : Option (Option NegBody)
  statusCode : Option Nat

/-- The `for (let attempt = 0; attempt <= options.retryAttempts; attempt++)`
loop of `negotiateAgents`: a response records its status code and body and
sets `accepted` to the acceptance test, breaking when it holds; a thrown
error records the message and leaves everything else unchanged. -/
def negotiateAttemptsGo (behavior : Nat → NegotiationAttempt) : Nat → Nat → NegState → NegState
  | _, 0, st => st
  | attempt, fuel + 1, st =>
    match behavior attempt with
    | .response code body =>
      let ok := negotiationOk code body
      let st1 := { st with statusCode := some code, respBody := some body, accepted := ok }
      if ok then st1
      else
        negotiateAttemptsGo behavior (attempt + 1) fuel
          { st1 with lastError := some "unexpected-negotiation-response" }
    | .netError msg =>
      negotiateAttemptsGo behavior (attempt + 1) fuel { st with lastError := some msg }

/-- Outcome for one agent (loop body of `negotiateAgents`). -/
def negotiateOne (behavior : Nat → NegotiationAttempt) (agent : AgentInfo)
    (retryAttempts : Nat) : NegotiateResult :=
  let st := negotiateAttemptsGo behavior 0 (retryAttempts + 1)
    { accepted := false, lastError := none, respBody := none, statusCode := none }
  { agentId := agent.id, accepted := st.accepted, statusCode := st.statusCode,
    responseBody := st.respBody,
    error := if st.accepted then none else st.lastError }

/-- The `for (const agent of agents)` loop, with the oracle indexed by agent
position. -/
def negotiateAgentsGo (behavior : Nat → Nat → NegotiationAttempt) (retryAttempts : Nat) :
    Nat → List AgentInfo → List NegotiateResult
  | _, [] => []
  | i, a :: rest =>
    negotiateOne (behavior i) a retryAttempts :: negotiateAgentsGo behavior retryAttempts (i + 1) rest

/-- Source `negotiateAgents(agents, opts)` (part_001). -/
def negotiateAgents (behavior : Nat → Nat → NegotiationAttempt) (agents : List AgentInfo)
    (retryAttempts : Nat) : List NegotiateResult :=
  negotiateAgentsGo behavior retryAttempts 0 agents

/-! ## Negotiation helper of the first worker (src/icma/src/index.ts,
`negotiateAgent`)

A single `POST /negotiate` whose response body is `res.json().catch(() => ({}))`
(never `null`); a network error or timeout is the `netError` case.
-/

structure NegBody2 where
  accept : Option Bool
  status : Option String
  deriving DecidableEq

inductive NegotiateAgentAttempt where
  | response (ok : Bool) (code : Nat) (body : NegBody2)
  | netError

/-- Source `negotiateAgent` of src/icma/src/index.ts.  Faithful to the source: a
non-ok status is acceptance exactly for 404/405; with an ok status, an
explicit `accept` boolean is honored, and otherwise the function returns
`true` whether or not a recognized status token is present (the source's
final branch is `return true; // default to true`); a network error also
yields `true`. -/
def negotiateAgent : NegotiateAgentAttempt → Bool
  | .response ok code body =>
    if !ok then code == 404 || code == 405
    else
      match body.accept with
      | some v => v
      | none =>
        if body.status == some "ACCEPT" || body.status == some "OK"
            || body.status == some "accepted" then true
        else true
  | .netError => true

/-! ## Capability prober (src/tools/discoverAgents.ts) -/

structure ProbeBody where
  name : Option String
  capabilities : Option (List String)
  deriving DecidableEq

/-- One attempt inside `probeCapabilities`: a non-ok response (`continue`), a
thrown fetch/json error (`continue` after jitter), or an ok response with a
parsed JSON value (`null` possible, returned as-is). -/
inductive ProbeAttempt where
  | httpError
  | netError
  | success (data : Option ProbeBody)

def isProbeSuccess : ProbeAttempt → Bool
  | .success _ => true
  | _ => false

/-- The `while (attempt <= retries)` loop of `probeCapabilities`; exhaustion
returns `null`, conflated with a successful `null` payload exactly as in the
source. -/
def probeCapabilitiesGo (behavior : Nat → ProbeAttempt) : Nat → Nat → Option ProbeBody
  | _, 0 => none
  | attempt, fuel + 1 =>
    match behavior attempt with
    | .success data => data
    | _ => probeCapabilitiesGo behavior (attempt + 1) fuel

/-- Source `probeCapabilities(urlBase, timeoutMs, retries)`. -/
def probeCapabilities (behavior : Nat → ProbeAttempt) (retries : Nat) : Option ProbeBody :=
  probeCapabilitiesGo behavior 0 (retries + 1)

/-- Source `a.name || agent.name`: JS `||` treats the empty string as falsy. -/
def jsOrOptStr (a b : Option String) : Option String :=
  match a with
  | some s => if s == "" then b else some s
  | none => b

/-- The probe mapper passed to `pMap`: a non-null payload with an array
`capabilities` field replaces the capability set (and display name); anything
else passes the agent through unchanged.  (`meta` merging is omitted.) -/
def probeAgent (behavior : Nat → ProbeAttempt) (agent : AgentInfo) (retries : Nat) : AgentInfo :=
  match probeCapabilities behavior retries with
  | some data =>
    match data.capabilities with
    | some caps =>
      { id := agent.id, name := jsOrOptStr data.name agent.name,
        endpoint := agent.endpoint, capabilities := caps }
    | none => agent
  | none => agent

/-- Source `pMap(fallback, probeConcurrency, mapper)`: the result array satisfies
`out[i] = mapper(items[i], i)` regardless of the concurrency limit, so the
limit does not appear in the model.  The oracle is indexed by agent
position. -/
def probeStageGo (behavior : Nat → Nat → ProbeAttempt) (retries : Nat) :
    Nat → List AgentInfo → List AgentInfo
  | _, [] => []
  | i, a :: rest => probeAgent (behavior i) a retries :: probeStageGo behavior retries (i + 1) rest

/-- The probing stage of `discoverAgents` (before deduplication). -/
def probeStage (behavior : Nat → Nat → ProbeAttempt) (agents : List AgentInfo)
    (retries : Nat) : List AgentInfo :=
  probeStageGo behavior retries 0 agents

/-! ### Deduplication by id (JS `Map` semantics)

`for (const a of probed) map.set(a.id, a); return [...map.values()]`:
key order is first-insertion order, the value for a key is the last one set.
-/

/-- Source `map.set(k, v)` on an insertion-ordered association list. -/
def jsMapSet (m : List (String × AgentInfo)) (k : String) (v : AgentInfo) :
    List (String × AgentInfo) :=
  if (m.map Prod.fst).contains k then
    m.map (fun p => if p.1 == k then (p.1, v) else p)
  else m ++ [(k, v)]

/-- Deduplicate by agent id, keeping the most recently inserted record. -/
def dedupById (l : List AgentInfo) : List AgentInfo :=
  (l.foldl (fun m a => jsMapSet m a.id a) []).map Prod.snd

/-- The last element of `l` whose id is `k` ("most recently probed record"). -/
def lastWithId (l : List AgentInfo) (k : String) : Option AgentInfo :=
  l.reverse.find? (fun a => a.id == k)

/-! ## Registry loading -/

/-- A raw registry entry as JSON: every field optional.  An element of the
registry array may itself be `null` (hence `Option RawEntry` below). -/
structure RawEntry where
  id : Option String
  name : Option String
  url : Option String
  endpoint : Option String
  baseUrl : Option String
  capabilities : Option (List String)
  deriving DecidableEq

inductive RegistryJson where
  | arr (entries : List (Option RawEntry))
  | nonArray
  deriving DecidableEq

/-- Outcome of the registry fetch: a network/parse error, a non-success HTTP
status, or a parsed JSON payload. -/
inductive RegistryFetchResult where
  | fetchError
  | httpError
  | payload (data : RegistryJson)
  deriving DecidableEq

/-- Source `loadRegistry` (src/tools/discoverAgents.ts): `null` on any failure or
non-array payload, the array otherwise. -/
def loadRegistry : RegistryFetchResult → Option (List (Option RawEntry))
  | .payload (.arr es) => some es
  | _ => none

/-- JS truthiness of an optional string (`undefined`, `null` and `""` are
falsy). -/
def truthyStr : Option String → Bool
  | some s => !(s == "")
  | none => false

/-- The filter `a && a.id && (a.url || a.endpoint)` of `discoverAgents`'s
normalization. -/
def entryKeep : Option RawEntry → Bool
  | some e => truthyStr e.id && (truthyStr e.url || truthyStr e.endpoint)
  | none => false

/-- Source `String(x)` on an optional string (`String(undefined)` is
`"undefined"`). -/
def jsStringOf : Option String → String
  | some s => s
  | none => "undefined"

/-- The mapper of `discoverAgents`'s normalization (applied to entries that
pass `entryKeep`). -/
def normalizeEntry (e : RawEntry) : AgentInfo :=
  { id := jsStringOf e.id,
    name := some (jsStringOf (jsOrOptStr e.name e.id)),
    endpoint := (jsStringOf (jsOrOptStr e.endpoint e.url)).trim,
    capabilities := e.capabilities.getD [] }

/-- Source `registry.filter(...).map(...)` of `discoverAgents`. -/
def normalizeRegistry (registry : List (Option RawEntry)) : List AgentInfo :=
  (registry.filter entryKeep).filterMap (fun oe => oe.map normalizeEntry)

/-- Registry handling of `discoverAgents`: `loadRegistry` with `[]`
substituted for `null`, then normalization. -/
def loadRegistryStage (fetchRes : RegistryFetchResult) : List AgentInfo :=
  normalizeRegistry ((loadRegistry fetchRes).getD [])

/-! ### Registry loader of the first worker (src/icma/src/index.ts,
`loadAgentRegistry`) -/

structure AgentDescriptor where
  id : Option String
  name : Option String
  endpoint : Option String
  deriving DecidableEq

/-- Source `{id: x.id, name: x.name, endpoint: x.endpoint || x.url || x.baseUrl}`. -/
def descriptorOfRaw (x : RawEntry) : AgentDescriptor :=
  { id := x.id, name := x.name, endpoint := jsOrOptStr x.endpoint (jsOrOptStr x.url x.baseUrl) }

/-- Source `loadAgentRegistry` of src/icma/src/index.ts: `[]` on fetch error,
non-success status or non-array payload; otherwise `data.map(x => ...)`.
Mapping a `null` array element throws a `TypeError` on `x.id`, which the
surrounding `try` turns into `[]`. -/
def loadAgentRegistry : RegistryFetchResult → List AgentDescriptor
  | .payload (.arr es) =>
    if es.all Option.isSome then es.filterMap (fun oe => oe.map descriptorOfRaw)
    else []
  | _ => []

/-! ## Capability prober of the first worker (src/icma/src/index.ts,
`probeAgents`)

Each probe is a single `GET /capabilities` (no retry).  A failed probe
(`!res.ok` or a thrown error) pushes nothing; the response body is
`res.json().catch(() => ({}))`, never `null`.  Under concurrency the push
order is the completion order; it is modelled as registry order (the claims
do not depend on it).
-/

structure AgentProbe where
  id : Option String
  name : Option String
  endpoint : Option String
  capabilities : List String
  deriving DecidableEq

inductive SimpleProbeAttempt where
  | httpError (code : Nat)
  | netError (msg : String)
  | success (body : ProbeBody)

def probeAgentsGo (behavior : Nat → SimpleProbeAttempt) : Nat → List AgentDescriptor → List AgentProbe
  | _, [] => []
  | i, agent :: rest =>
    match behavior i with
    | .success body =>
      { id := agent.id, name := agent.name, endpoint := agent.endpoint,
        capabilities := body.capabilities.getD [] } :: probeAgentsGo behavior (i + 1) rest
    | _ => probeAgentsGo behavior (i + 1) rest

/-- Source `probeAgents(registry, log)` of src/icma/src/index.ts. -/
def probeAgents (behavior : Nat → SimpleProbeAttempt) (registry : List AgentDescriptor) :
    List AgentProbe :=
  probeAgentsGo behavior 0 registry

/-! ## String helpers for `scoreAgent` (JS `toLowerCase`, `includes`,
`startsWith`) -/

def listStartsWith [BEq α] : List α → List α → Bool
  | _, [] => true
  | [], _ :: _ => false
  | a :: as, b :: bs => a == b && listStartsWith as bs

def listHasSub [BEq α] : List α → List α → Bool
  | [], sub => sub.isEmpty
  | a :: t, sub => listStartsWith (a :: t) sub || listHasSub t sub

/-- JS `hay.includes(needle)`. -/
def strIncludes (hay needle : String) : Bool :=
  listHasSub hay.toList needle.toList

/-- JS `s.startsWith(t)`. -/
def strStarts (s t : String) : Bool :=
  listStartsWith s.toList t.toList

/-- JS `s.toLowerCase()` (ASCII, which is all the source compares). -/
def jsLower (s : String) : String := s.map Char.toLower

/-! ## First worker's step loop (src/icma/src/index.ts `fetch`) -/

/-- Source `WorkflowStep` of src/icma/src/index.ts; the optional fixed input payload
does not influence which agents are contacted, only the request body, which
the oracle already absorbs. -/
structure WorkflowStep where
  step : String
  capability : String
  deriving DecidableEq

/-- Source `scoreAgent(a, env)`: +10 when the display name contains "worker", +2 for
an https endpoint, +5 when the endpoint contains `env.ORCHESTRATOR_DOMAIN`. -/
def scoreAgent (a : AgentProbe) (envDomain : Option String) : Nat :=
  (if strIncludes (jsLower (jsStringOf a.name)) "worker" then 10 else 0) +
  (if strStarts (jsStringOf a.endpoint) "https://" then 2 else 0) +
  (match envDomain with
   | some d => if !(d == "") && strIncludes (jsStringOf a.endpoint) d then 5 else 0
   | none => 0)

/-- Stable insertion by descending score (JS `Array.prototype.sort` is
stable; the comparator is `(a, b) => scoreAgent(b) - scoreAgent(a)`). -/
def insertDescByScore (score : AgentProbe → Nat) (x : AgentProbe) :
    List AgentProbe → List AgentProbe
  | [] => [x]
  | y :: ys => if score y ≤ score x then x :: y :: ys else y :: insertDescByScore score x ys

def sortDescByScore (score : AgentProbe → Nat) (l : List AgentProbe) : List AgentProbe :=
  l.foldr (insertDescByScore score) []

/-- Source `chooseAgent(candidates, env, log)`: sort by score descending, take the
first.  Only called with non-empty candidate lists; the `[]` branch is
unreachable there. -/
def chooseAgent (candidates : List AgentProbe) (envDomain : Option String) : AgentProbe :=
  match sortDescByScore (fun a => scoreAgent a envDomain) candidates with
  | [] => { id := none, name := none, endpoint := none, capabilities := [] }
  | c :: _ => c

/-- The capability map built by the first worker: `for (const p of probed)
for (const c of p.capabilities) map[c].push(p)`.  For a fixed capability the
bucket lists each probed agent once per occurrence of the capability in its
list, in probed order. -/
def candidatesFor (probed : List AgentProbe) (cap : String) : List AgentProbe :=
  probed.flatMap (fun p => (p.capabilities.filter (fun c => c == cap)).map (fun _ => p))

/-! ### `executeAgentWithRetries` (src/icma/src/index.ts)

`maxAttempts = 3` is hard-coded.  One attempt yields a response (`ok`
status flag, numeric code, raw text, and the result of `JSON.parse(text)`
when it parses) or a network error.  The returned value collapses the
source's `httpStatus`/`body` diagnostic fields into `rest`.
-/

inductive ExecAttempt where
  | response (ok : Bool) (code : Nat) (text : String) (parsed : Option JsonBody)
  | netError (msg : String)

def execRetryGo (behavior : Nat → ExecAttempt) : Nat → Nat → JsonBody
  | _, 0 => JsonBody.mk (some "FAILED") none "Max attempts reached"
  | attempt, fuel + 1 =>
    match behavior attempt with
    | .response ok code text parsed =>
      if ok then
        match parsed with
        | some data => data
        | none => JsonBody.mk (some "DONE") (some (JsonBody.mk none none text)) ""
      else
        if 500 ≤ code && fuel > 0 then execRetryGo behavior (attempt + 1) fuel
        else JsonBody.mk (some "FAILED") none text
    | .netError msg =>
      if fuel > 0 then execRetryGo behavior (attempt + 1) fuel
      else JsonBody.mk (some "FAILED") none msg

/-- Source `executeAgentWithRetries(agentBase, input, log)` with its three hard-coded
attempts. -/
def executeAgentWithRetries (behavior : Nat → ExecAttempt) : JsonBody :=
  execRetryGo behavior 0 3

/-- Terminal outcome of the first worker's per-step loop. -/
inductive RunOutcome where
  | failed (error : String)
  | completed
  deriving DecidableEq

/-- The `for (const step of workflow)` loop of the first worker's `fetch`
handler, instrumented with counts of how many negotiation and execution
operations were invoked.  Candidate lookup, negotiation and execution happen
per step, in order; the accumulation of `finalOutput` does not influence
control flow and is omitted. -/
def runWorkflowLoopGo (probed : List AgentProbe) (envDomain : Option String)
    (negOracle : Nat → NegotiateAgentAttempt) (execOracle : Nat → Nat → ExecAttempt) :
    Nat → Nat → Nat → List WorkflowStep → RunOutcome × Nat × Nat
  | _, negC, execC, [] => (.completed, negC, execC)
  | i, negC, execC, step :: rest =>
    let candidates := candidatesFor probed step.capability
    if candidates.isEmpty then
      (.failed ("No agent found with capability \"" ++ step.capability ++ "\""), negC, execC)
    else
      let chosen := chooseAgent candidates envDomain
      if negotiateAgent (negOracle i) then
        let execResponse := executeAgentWithRetries (execOracle i)
        if execResponse.status == some "DONE" then
          runWorkflowLoopGo probed envDomain negOracle execOracle (i + 1) (negC + 1) (execC + 1) rest
        else
          (.failed ("Agent execution failed for " ++ jsStringOf chosen.endpoint ++
            " (step " ++ step.step ++ ")"), negC + 1, execC + 1)
      else
        (.failed ("Agent " ++ jsStringOf chosen.endpoint ++
          " rejected negotiation for capability " ++ step.capability), negC + 1, execC)

/-- The first worker's per-step orchestration loop. -/
def runWorkflowLoop (probed : List AgentProbe) (envDomain : Option String)
    (negOracle : Nat → NegotiateAgentAttempt) (execOracle : Nat → Nat → ExecAttempt)
    (workflow : List WorkflowStep) : RunOutcome × Nat × Nat :=
  runWorkflowLoopGo probed envDomain negOracle execOracle 0 0 0 workflow

/-! ## Orchestrator endpoint (src/icma/src/index.ts, second worker's
`POST /execute` handler) -/

inductive OrchestrateResponse where
  | missingSteps (missing : List String)
  | negotiationRefused (agentIds : List String)
  | execError (errMsg : String) (logs : List ExecutionLogEntry)
  | done (finalOutput : JsonBody) (logs : List ExecutionLogEntry)

/-- Steps 2–4 of the orchestrator's `/execute` handler: match capabilities,
report missing steps, negotiate with the selected agents
(`retryAttempts: 1`), then run the workflow (`retryAttempts: 1`).  The two
boolean components record whether `negotiateAgents` resp. `executeWorkflow`
were invoked.  The source fixes `steps = WORKFLOW_STEPS`; the handler logic
is step-generic, so `steps` is a parameter. -/
def orchestrateExecute (agents : List AgentInfo) (steps : List String)
    (negBehavior : Nat → Nat → NegotiationAttempt)
    (execBehavior : Nat → Nat → JsonBody → AttemptResult)
    (initialPayload : JsonBody) : OrchestrateResponse × Bool × Bool :=
  let matchResults := matchCapabilities agents steps none
  let missing := steps.filter (fun s => !(matchResults.any (fun m => m.step == s)))
  if missing.isEmpty then
    let negotiateResults := negotiateAgents negBehavior (matchResults.map MatchResult.agent) 1
    let refused := negotiateResults.filter (fun r => !r.accepted)
    if refused.isEmpty then
      match executeWorkflow execBehavior matchResults initialPayload 1 with
      | (.done fin logs, _) => (.done fin logs, true, true)
      | (.failed err logs _, _) => (.execError err logs, true, true)
    else (.negotiationRefused (refused.map NegotiateResult.agentId), true, false)
  else (.missingSteps missing, false, false)

/-! ## Concrete example inputs used by counterexamples and witnesses -/

def agentScan : AgentInfo :=
  { id := "a1", name := some "ScanAgent", endpoint := "https://scan.example",
    capabilities := ["wallet_scan"] }

def agentReport : AgentInfo :=
  { id := "a2", name := some "ReportAgent", endpoint := "https://report.example",
    capabilities := ["generate_report"] }

/-- Same id as `agentScan`, a later (refreshed) record. -/
def agentScanV2 : AgentInfo :=
  { id := "a1", name := some "ScanAgentV2", endpoint := "https://scan2.example",
    capabilities := ["wallet_scan", "risk_score"] }

/-- Every negotiation attempt: HTTP 200 with a body that failed to parse
(`null`) — no accept token, no accept flag. -/
def cexNegBehavior : Nat → Nat → NegotiationAttempt := fun _ _ => .response 200 none

/-- Every negotiation attempt: HTTP 404 with a `null` body. -/
def wNegBehavior : Nat → Nat → NegotiationAttempt := fun _ _ => .response 404 none

def cexAxiosSteps : List EWStep :=
  [{ stepId := 1, role := "data_extractor", agent := agentScan },
   { stepId := 2, role := "report_generator", agent := agentReport },
   { stepId := 3, role := "uploader", agent := agentScan }]

/-- Step A resolves with `{status: "WORKING"}` (a response, no `"DONE"`
sentinel, no rejection); later steps resolve with `{status: "DONE"}`. -/
def cexAxiosBehavior : Nat → AxiosResult := fun i =>
  if i == 0 then .ok (some (JsonBody.mk (some "WORKING") none ""))
  else .ok (some (JsonBody.mk (some "DONE") none ""))

def wMatchA : MatchResult := { step := "analyze_wallet", agent := agentScan }
def wMatchB : MatchResult := { step := "generate_report", agent := agentReport }
def wMatchC : MatchResult := { step := "publish", agent := agentScan }

def wInitPayload : JsonBody := JsonBody.mk none none "init"

/-- Step A's agent always answers with a non-`"DONE"` response. -/
def wNonDoneBehavior : Nat → Nat → JsonBody → AttemptResult :=
  fun _ _ _ => .response 200 (some (JsonBody.mk (some "WORKING") none ""))

/-- Fails (network error) on attempt 0, returns a `"DONE"` response on
attempt 1: exercises `retryAttempts = 1`. -/
def wRetryBehavior : Nat → Nat → JsonBody → AttemptResult := fun _ att _ =>
  if att < 1 then .netError "timeout"
  else .response 200 (some (JsonBody.mk (some "DONE") (some (JsonBody.mk none none "out")) ""))

def cexDescriptor : AgentDescriptor :=
  { id := some "wallet-agent", name := some "WalletAnalysisAgent",
    endpoint := some "https://wallet.example" }

def cexProbeFailBehavior : Nat → SimpleProbeAttempt := fun _ => .netError "timeout"

/-- Agent 0 probes successfully with a fresh capability list; every other
probe attempt errors out. -/
def wProbeBehavior : Nat → Nat → ProbeAttempt := fun i _ =>
  if i == 0 then .success (some { name := some "FreshName", capabilities := some ["wallet_scan"] })
  else .netError

/-- Probing always fails: every agent passes through unchanged. -/
def wProbeAllFail : Nat → Nat → ProbeAttempt := fun _ _ => .netError

def cexRawNoId : RawEntry :=
  { id := none, name := some "x", url := none, endpoint := none, baseUrl := none,
    capabilities := none }

def wRawGood : RawEntry :=
  { id := some "wallet-agent", name := some "WalletAnalysisAgent",
    url := some "https://wallet.example", endpoint := none, baseUrl := none,
    capabilities := some ["wallet_scan"] }

def cexProbeWallet : AgentProbe :=
  { id := some "wallet-agent", name := some "WalletWorker",
    endpoint := some "https://wallet.example", capabilities := ["wallet_scan"] }

def cexNegOracle : Nat → NegotiateAgentAttempt :=
  fun _ => .response true 200 { accept := some true, status := none }

def cexExecOracle : Nat → Nat → ExecAttempt :=
  fun _ _ => .response true 200 "body" (some (JsonBody.mk (some "DONE") none ""))

def cexWorkflowC8 : List WorkflowStep :=
  [{ step := "analyze_wallet", capability := "wallet_scan" },
   { step := "generate_report", capability := "generate_report" }]

/-- Negotiation oracle that always has the network down. -/
def wNegDownOracle : Nat → Nat → NegotiationAttempt := fun _ _ => .netError "down"

/-! # Supporting lemmas -/

theorem findPreferredAgent_eq (agents : List AgentInfo) (step : String) (ps : List String) :
    findPreferredAgent agents step ps =
      (ps.find? (fun p => agents.any (fun x => x.id == p && x.capabilities.contains step))).bind
        (fun p => agents.find? (fun x => x.id == p && x.capabilities.contains step)) := by
  induction ps with
  | nil => rfl
  | cons p rest ih =>
    cases hf : agents.find? (fun x => x.id == p && x.capabilities.contains step) with
    | some a =>
      have hpa := List.find?_some hf
      have hany : agents.any (fun x => x.id == p && x.capabilities.contains step) = true :=
        List.any_eq_true.mpr ⟨a, List.mem_of_find?_eq_some hf, hpa⟩
      simp only [findPreferredAgent, hf]
      rw [List.find?_cons_of_pos
        (p := fun q => agents.any fun x => x.id == q && x.capabilities.contains step) rest hany]
      exact hf.symm
    | none =>
      have hnone := List.find?_eq_none.mp hf
      have hany : agents.any (fun x => x.id == p && x.capabilities.contains step) = false := by
        rw [Bool.eq_false_iff]
        intro hc
        obtain ⟨x, hx, hpx⟩ := List.any_eq_true.mp hc
        exact (hnone x hx) hpx
      simp only [findPreferredAgent, hf]
      rw [List.find?_cons_of_neg
        (p := fun q => agents.any fun x => x.id == q && x.capabilities.contains step) rest
        (fun hc => Bool.false_ne_true (hany ▸ hc)), ih]

theorem selectCandidate_eq_spec (agents : List AgentInfo) (prefs : Option (List String))
    (step : String) : selectCandidate agents prefs step = specMatchSelect agents prefs step := by
  cases prefs with
  | none => rfl
  | some ps =>
    simp only [selectCandidate, specMatchSelect, findPreferredAgent_eq]
    cases hq : ps.find? (fun p => agents.any (fun x => x.id == p && x.capabilities.contains step)) with
    | none => rfl
    | some p =>
      have hqp := List.find?_some hq
      obtain ⟨x, hx, hpx⟩ := List.any_eq_true.mp hqp
      cases hfp : agents.find? (fun x => x.id == p && x.capabilities.contains step) with
      | some a =>
        show (match agents.find? (fun x => x.id == p && x.capabilities.contains step) with
              | some a => some a
              | none => agents.find? (fun a => a.capabilities.contains step)) =
            agents.find? (fun x => x.id == p && x.capabilities.contains step)
        rw [hfp]
      | none => exact absurd hpx (List.find?_eq_none.mp hfp x hx)

theorem findPreferredAgent_some_contains (agents : List AgentInfo) (step : String)
    (ps : List String) (a : AgentInfo) (h : findPreferredAgent agents step ps = some a) :
    a.capabilities.contains step = true := by
  induction ps with
  | nil => simp [findPreferredAgent] at h
  | cons p rest ih =>
    simp only [findPreferredAgent] at h
    cases hf : agents.find? (fun x => x.id == p && x.capabilities.contains step) with
    | some b =>
      rw [hf] at h
      cases h
      have hpb := List.find?_some hf
      rw [Bool.and_eq_true] at hpb
      exact hpb.2
    | none =>
      rw [hf] at h
      exact ih h

theorem selectCandidate_contains (agents : List AgentInfo) (prefs : Option (List String))
    (step : String) (a : AgentInfo) (h : selectCandidate agents prefs step = some a) :
    a.capabilities.contains step = true := by
  unfold selectCandidate at h
  cases prefs with
  | none =>
    simp only at h
    have := List.find?_some h
    exact this
  | some ps =>
    simp only at h
    cases hp : findPreferredAgent agents step ps with
    | some b =>
      rw [hp] at h
      cases h
      exact findPreferredAgent_some_contains agents step ps _ hp
    | none =>
      rw [hp] at h
      have := List.find?_some h
      exact this

/-! # Claim theorems -/

/-- C10: for the empty workflow, `execute_workflow` returns overall status
`"OK"` with an empty outputs list, in both sequential and parallel mode. -/
theorem claimC10 (behavior : Nat → AxiosResult) (parallel : Bool) :
    execute_workflow behavior [] parallel = { status := .OK, outputs := [] } := by
  cases parallel <;> rfl

/-- C6: `matchCapabilities` selects per step exactly as the specification's
selection rule states — with a preference list, the first preferred agent id
whose capability set contains the step's capability; otherwise the first
agent in population order whose capability set contains it; a step with no
qualifying agent contributes no assignment (`specMatchSelect` returns `none`
and `filterMap` skips the step). -/
theorem claimC6 (agents : List AgentInfo) (steps : List String) (prefs : Option (List String)) :
    matchCapabilities agents steps prefs =
      steps.filterMap
        (fun s => (specMatchSelect agents prefs s).map (fun a => { step := s, agent := a })) := by
  unfold matchCapabilities
  have h : ∀ s, selectCandidate agents prefs s = specMatchSelect agents prefs s :=
    fun s => selectCandidate_eq_spec agents prefs s
  simp only [h]

/-- C9: every assignment returned by the capability matcher pairs a step with
an agent whose capability set contains that step's capability name. -/
theorem claimC9 (agents : List AgentInfo) (steps : List String) (prefs : Option (List String))
    (m : MatchResult) (h : m ∈ matchCapabilities agents steps prefs) :
    m.agent.capabilities.contains m.step = true := by
  unfold matchCapabilities at h
  obtain ⟨s, _, hmap⟩ := List.mem_filterMap.mp h
  obtain ⟨a, hsel, hm⟩ := Option.map_eq_some'.mp hmap
  cases hm
  exact selectCandidate_contains agents prefs s a hsel

/-- C1 counterexample: with every attempt an HTTP 200 whose body is `null`
(no accept status token, no boolean accept flag anywhere), `negotiateAgents`
records the agent as accepted — refuting "an absent, ambiguous, or erroneous
negotiation response is never recorded as acceptance". -/
theorem claimC1_counterexample :
    negotiateAgents cexNegBehavior [agentScan] 1 =
      [{ agentId := "a1", accepted := true, statusCode := some 200,
         responseBody := some none, error := none }] ∧
    attemptHasAffirmativeSignal (.response 200 none) = false := by
  exact ⟨rfl, rfl⟩

/-- C2 counterexample: in the axios-based `execute_workflow` (sequential
mode), step A resolving with a non-`"DONE"` response does not short-circuit:
all three steps are called and logged (three entries, not one). -/
theorem claimC2_counterexample :
    (execute_workflow cexAxiosBehavior cexAxiosSteps false).outputs.length = 3 ∧
    cexAxiosBehavior 0 = .ok (some (JsonBody.mk (some "WORKING") none "")) := by
  exact ⟨rfl, rfl⟩

/-- C4 counterexample: `probeAgents` (src/icma/src/index.ts) drops an agent
whose probe fails instead of passing it through: one input agent, zero output
records. -/
theorem claimC4_counterexample :
    probeAgents cexProbeFailBehavior [cexDescriptor] = [] ∧
    [cexDescriptor].length = 1 := by
  exact ⟨rfl, rfl⟩

/-- C7 counterexample: `loadAgentRegistry` (src/icma/src/index.ts) keeps a
raw entry that has neither an identifier nor an address (it maps the missing
fields through as `undefined`) instead of dropping it. -/
theorem claimC7_counterexample :
    loadAgentRegistry (.payload (.arr [some cexRawNoId])) =
      [{ id := none, name := some "x", endpoint := none }] ∧
    entryKeep (some cexRawNoId) = false := by
  exact ⟨rfl, rfl⟩

/-- C8 counterexample: in the first worker's per-step loop, a run whose
second step has zero qualifying agents still invokes the negotiation and
execution operations of the first step's agent (both counters reach 1)
before the unmatched step aborts the run. -/
theorem claimC8_counterexample :
    runWorkflowLoop [cexProbeWallet] none cexNegOracle cexExecOracle cexWorkflowC8 =
      (.failed "No agent found with capability \"generate_report\"", 1, 1) ∧
    candidatesFor [cexProbeWallet] "generate_report" = [] := by
  exact ⟨rfl, rfl⟩

/-! ### Retry-loop lemmas for part_003's executor -/

theorem execAttemptsGo_zero (behavior : Nat → AttemptResult) (attempt : Nat) (st : StepState) :
    execAttemptsGo behavior attempt 0 st = st := rfl

theorem execAttemptsGo_succ (behavior : Nat → AttemptResult) (attempt fuel : Nat) (st : StepState) :
    execAttemptsGo behavior attempt (fuel + 1) st =
      match behavior attempt with
      | .response code body =>
        if bodyIsDone body then
          { st with statusCode := some code, calls := st.calls + 1, success := true,
                    out := some (some (doneOutput body)) }
        else
          execAttemptsGo behavior (attempt + 1) fuel
            { st with statusCode := some code, calls := st.calls + 1,
                      lastError := "unexpected-response", out := some body }
      | .netError msg =>
        execAttemptsGo behavior (attempt + 1) fuel
          { st with lastError := msg, calls := st.calls + 1 } := rfl

theorem execAttemptsGo_not_done (behavior : Nat → AttemptResult) :
    ∀ (fuel attempt : Nat) (st : StepState),
      (∀ d, d < fuel → isDoneAttempt (behavior (attempt + d)) = false) →
      st.success = false →
      (execAttemptsGo behavior attempt fuel st).success = false := by
  intro fuel
  induction fuel with
  | zero => intro attempt st _ hst; exact hst
  | succ fuel ih =>
    intro attempt st hall hst
    have h0 : isDoneAttempt (behavior attempt) = false := by
      have := hall 0 (Nat.succ_pos _)
      rwa [Nat.add_zero] at this
    have hshift : ∀ d, d < fuel → isDoneAttempt (behavior (attempt + 1 + d)) = false := by
      intro d hd
      have heq : attempt + 1 + d = attempt + (d + 1) := by omega
      rw [heq]
      exact hall (d + 1) (Nat.succ_lt_succ hd)
    rw [execAttemptsGo_succ]
    cases hb : behavior attempt with
    | response code body =>
      have hbd : bodyIsDone body = false := by rw [hb] at h0; exact h0
      simp only [hbd, Bool.false_eq_true, if_false]
      exact ih (attempt + 1) _ hshift hst
    | netError msg =>
      exact ih (attempt + 1) _ hshift hst

theorem execAttemptsGo_calls_le (behavior : Nat → AttemptResult) :
    ∀ (fuel attempt : Nat) (st : StepState),
      (execAttemptsGo behavior attempt fuel st).calls ≤ st.calls + fuel := by
  intro fuel
  induction fuel with
  | zero => intro attempt st; exact Nat.le_refl _
  | succ fuel ih =>
    intro attempt st
    rw [execAttemptsGo_succ]
    cases hb : behavior attempt with
    | response code body =>
      cases hbd : bodyIsDone body with
      | true =>
        simp only [hbd, if_true]
        omega
      | false =>
        simp only [hbd, Bool.false_eq_true, if_false]
        have h1 : (execAttemptsGo behavior (attempt + 1) fuel
            { st with statusCode := some code, calls := st.calls + 1,
                      lastError := "unexpected-response", out := some body }).calls ≤
            st.calls + 1 + fuel :=
          ih (attempt + 1) _
        omega
    | netError msg =>
      have h1 : (execAttemptsGo behavior (attempt + 1) fuel
          { st with lastError := msg, calls := st.calls + 1 }).calls ≤ st.calls + 1 + fuel :=
        ih (attempt + 1) _
      show (execAttemptsGo behavior (attempt + 1) fuel
          { st with lastError := msg, calls := st.calls + 1 }).calls ≤ st.calls + (fuel + 1)
      omega

theorem execAttemptsGo_success_last (behavior : Nat → AttemptResult) :
    ∀ (fuel attempt : Nat) (st : StepState),
      0 < fuel →
      (∀ d, d + 1 < fuel → isDoneAttempt (behavior (attempt + d)) = false) →
      isDoneAttempt (behavior (attempt + (fuel - 1))) = true →
      (execAttemptsGo behavior attempt fuel st).success = true ∧
      (execAttemptsGo behavior attempt fuel st).calls = st.calls + fuel := by
  intro fuel
  induction fuel with
  | zero => intro attempt st h; omega
  | succ fuel ih =>
    intro attempt st _ hfail hdone
    cases fuel with
    | zero =>
      have hd : isDoneAttempt (behavior attempt) = true := by
        simpa using hdone
      rw [execAttemptsGo_succ]
      cases hb : behavior attempt with
      | response code body =>
        have hbd : bodyIsDone body = true := by rw [hb] at hd; exact hd
        simp [hbd]
      | netError msg =>
        rw [hb] at hd
        exact absurd hd (by simp [isDoneAttempt])
    | succ fuel =>
      have h0 : isDoneAttempt (behavior attempt) = false := by
        have := hfail 0 (by omega)
        rwa [Nat.add_zero] at this
      have hfail1 : ∀ d, d + 1 < fuel + 1 → isDoneAttempt (behavior (attempt + 1 + d)) = false := by
        intro d hd
        have heq : attempt + 1 + d = attempt + (d + 1) := by omega
        rw [heq]
        exact hfail (d + 1) (by omega)
      have hdone1 : isDoneAttempt (behavior (attempt + 1 + (fuel + 1 - 1))) = true := by
        have heq : attempt + 1 + (fuel + 1 - 1) = attempt + (fuel + 1 + 1 - 1) := by omega
        rw [heq]
        exact hdone
      rw [execAttemptsGo_succ]
      cases hb : behavior attempt with
      | response code body =>
        have hbd : bodyIsDone body = false := by rw [hb] at h0; exact h0
        simp only [hbd, Bool.false_eq_true, if_false]
        have hrec := ih (attempt + 1)
          { st with statusCode := some code, calls := st.calls + 1,
                    lastError := "unexpected-response", out := some body }
          (by omega) hfail1 hdone1
        have h2 : (execAttemptsGo behavior (attempt + 1) (fuel + 1)
            { st with statusCode := some code, calls := st.calls + 1,
                      lastError := "unexpected-response", out := some body }).calls =
            st.calls + 1 + (fuel + 1) := hrec.2
        exact ⟨hrec.1, by omega⟩
      | netError msg =>
        have hrec := ih (attempt + 1) { st with lastError := msg, calls := st.calls + 1 }
          (by omega) hfail1 hdone1
        have h2 : (execAttemptsGo behavior (attempt + 1) (fuel + 1)
            { st with lastError := msg, calls := st.calls + 1 }).calls =
            st.calls + 1 + (fuel + 1) := hrec.2
        refine ⟨?_, ?_⟩
        · show (execAttemptsGo behavior (attempt + 1) (fuel + 1)
              { st with lastError := msg, calls := st.calls + 1 }).success = true
          exact hrec.1
        · show (execAttemptsGo behavior (attempt + 1) (fuel + 1)
              { st with lastError := msg, calls := st.calls + 1 }).calls =
              st.calls + (fuel + 1 + 1)
          omega

theorem isDoneAttempt_eq_false_of_isNonDoneResponse (x : AttemptResult)
    (h : isNonDoneResponse x = true) : isDoneAttempt x = false := by
  cases x with
  | response code body =>
    simp only [isNonDoneResponse, Bool.not_eq_true'] at h
    simpa [isDoneAttempt] using h
  | netError msg => simp [isNonDoneResponse] at h

theorem executeWorkflowGo_nil (behavior : Nat → Nat → JsonBody → AttemptResult)
    (r i : Nat) (payload : JsonBody) :
    executeWorkflowGo behavior r i payload [] = (.done payload [], []) := rfl

theorem executeWorkflowGo_cons_fail (behavior : Nat → Nat → JsonBody → AttemptResult)
    (r i : Nat) (payload : JsonBody) (m : MatchResult) (rest : List MatchResult)
    (h : (runStepAttempts (fun att => behavior i att payload) r).success = false) :
    executeWorkflowGo behavior r i payload (m :: rest) =
      (.failed ("Agent " ++ m.agent.id ++ " failed at step " ++ m.step)
        [stepEntry m (runStepAttempts (fun att => behavior i att payload) r)]
        (runStepAttempts (fun att => behavior i att payload) r).out,
       [(runStepAttempts (fun att => behavior i att payload) r).calls]) := by
  unfold executeWorkflowGo
  simp only [h, Bool.false_eq_true, if_false]

theorem executeWorkflowGo_cons_success (behavior : Nat → Nat → JsonBody → AttemptResult)
    (r i : Nat) (payload : JsonBody) (m : MatchResult) (rest : List MatchResult)
    (h : (runStepAttempts (fun att => behavior i att payload) r).success = true) :
    executeWorkflowGo behavior r i payload (m :: rest) =
      (match executeWorkflowGo behavior r (i + 1)
          (pipedPayload (runStepAttempts (fun att => behavior i att payload) r) payload) rest with
       | (.done fin logs, counts) =>
         (.done fin (stepEntry m (runStepAttempts (fun att => behavior i att payload) r) :: logs),
          (runStepAttempts (fun att => behavior i att payload) r).calls :: counts)
       | (.failed err logs lastOut, counts) =>
         (.failed err (stepEntry m (runStepAttempts (fun att => behavior i att payload) r) :: logs)
            lastOut,
          (runStepAttempts (fun att => behavior i att payload) r).calls :: counts)) := by
  rw [executeWorkflowGo.eq_2]
  simp only [h, if_true]

theorem runStepAttempts_calls_le (behavior : Nat → AttemptResult) (r : Nat) :
    (runStepAttempts behavior r).calls ≤ r + 1 := by
  have h : (execAttemptsGo behavior 0 (r + 1)
      { success := false, lastError := "", out := none, statusCode := none, calls := 0 }).calls ≤
      0 + (r + 1) := execAttemptsGo_calls_le behavior (r + 1) 0 _
  simpa [runStepAttempts] using h

theorem executeWorkflowGo_logs_counts (behavior : Nat → Nat → JsonBody → AttemptResult) (r : Nat) :
    ∀ (l : List MatchResult) (i : Nat) (payload : JsonBody),
      ((executeWorkflowGo behavior r i payload l).1.logs).length =
        ((executeWorkflowGo behavior r i payload l).2).length ∧
      (∀ c ∈ (executeWorkflowGo behavior r i payload l).2, c ≤ r + 1) := by
  intro l
  induction l with
  | nil =>
    intro i payload
    refine ⟨rfl, ?_⟩
    intro c hc
    simp [executeWorkflowGo_nil] at hc
  | cons m rest ih =>
    intro i payload
    cases hsucc : (runStepAttempts (fun att => behavior i att payload) r).success with
    | false =>
      rw [executeWorkflowGo_cons_fail behavior r i payload m rest hsucc]
      refine ⟨rfl, ?_⟩
      intro c hc
      simp only [List.mem_singleton] at hc
      subst hc
      exact runStepAttempts_calls_le _ r
    | true =>
      rw [executeWorkflowGo_cons_success behavior r i payload m rest hsucc]
      have hrec := ih (i + 1)
        (pipedPayload (runStepAttempts (fun att => behavior i att payload) r) payload)
      cases hgo : executeWorkflowGo behavior r (i + 1)
          (pipedPayload (runStepAttempts (fun att => behavior i att payload) r) payload) rest with
      | mk outcome counts =>
        rw [hgo] at hrec
        cases outcome with
        | done fin logs =>
          refine ⟨?_, ?_⟩
          · simpa [WorkflowOutcome.logs] using hrec.1
          · intro c hc
            simp only [List.mem_cons] at hc
            cases hc with
            | inl h => subst h; exact runStepAttempts_calls_le _ r
            | inr h => exact hrec.2 c h
        | failed err logs lastOut =>
          refine ⟨?_, ?_⟩
          · simpa [WorkflowOutcome.logs] using hrec.1
          · intro c hc
            simp only [List.mem_cons] at hc
            cases hc with
            | inl h => subst h; exact runStepAttempts_calls_le _ r
            | inr h => exact hrec.2 c h

/-- C2 (amended): in the fetch-based sequential executor (part_003's
`executeWorkflow`) the claim holds as stated: with steps `[A, B, C]` and step
A's agent always answering with a non-`"DONE"` response, the returned log has
exactly one entry (for A) and only step A's agent is ever called (one
call-count entry).  In the axios-based `execute_workflow`, a non-`"DONE"`
response does not short-circuit (see the counterexample); only a rejected
call breaks the sequential loop, after logging exactly one entry. -/
theorem claimC2_amended :
    (∀ (behavior : Nat → Nat → JsonBody → AttemptResult) (A B C : MatchResult)
       (init : JsonBody) (r : Nat),
       (List.range (r + 1)).all (fun att => isNonDoneResponse (behavior 0 att init)) = true →
       ∃ e lastOut c,
         executeWorkflow behavior [A, B, C] init r =
           (.failed ("Agent " ++ A.agent.id ++ " failed at step " ++ A.step) [e] lastOut, [c]) ∧
         e.step = A.step ∧ e.agentId = A.agent.id ∧ e.success = false) ∧
    (∀ (behavior : Nat → AxiosResult) (s : EWStep) (rest : List EWStep) (msg : String),
       behavior 0 = .err msg →
       (execute_workflow behavior (s :: rest) false).outputs.length = 1) := by
  constructor
  · intro behavior A B C init r hall
    have hnd : ∀ d, d < r + 1 → isDoneAttempt (behavior 0 d init) = false := by
      intro d hd
      exact isDoneAttempt_eq_false_of_isNonDoneResponse _
        (List.all_eq_true.mp hall d (List.mem_range.mpr hd))
    have hsucc : (runStepAttempts (fun att => behavior 0 att init) r).success = false := by
      have h := execAttemptsGo_not_done (fun att => behavior 0 att init) (r + 1) 0
        { success := false, lastError := "", out := none, statusCode := none, calls := 0 }
        (fun d hd => by simpa using hnd d hd) rfl
      exact h
    refine ⟨stepEntry A (runStepAttempts (fun att => behavior 0 att init) r),
      (runStepAttempts (fun att => behavior 0 att init) r).out,
      (runStepAttempts (fun att => behavior 0 att init) r).calls, ?_, rfl, rfl, hsucc⟩
    exact executeWorkflowGo_cons_fail behavior r 0 init A [B, C] hsucc
  · intro behavior s rest msg h
    simp [execute_workflow, executeSeqGo, h]

/-- claimC2_amended witness inputs and conclusion at a concrete run. -/
theorem claimC2_witness :
    ((List.range 2).all (fun att => isNonDoneResponse (wNonDoneBehavior 0 att wInitPayload)) = true) ∧
    (∃ e lastOut c,
      executeWorkflow wNonDoneBehavior [wMatchA, wMatchB, wMatchC] wInitPayload 1 =
        (.failed ("Agent " ++ wMatchA.agent.id ++ " failed at step " ++ wMatchA.step) [e] lastOut,
          [c]) ∧
      e.step = wMatchA.step ∧ e.agentId = wMatchA.agent.id ∧ e.success = false) :=
  ⟨rfl, claimC2_amended.1 wNonDoneBehavior wMatchA wMatchB wMatchC wInitPayload 1 rfl⟩

/-- C3: (a) for every workflow, every step's agent is called at most
`retryAttempts + 1` times, and exactly one log entry is appended per
processed step (the log and the per-step call-count list have equal length);
(b) a single-step workflow whose agent fails the first `retryAttempts`
attempts and returns a `"DONE"` response on the last allowed attempt yields
an overall success with exactly `retryAttempts + 1` underlying calls and
exactly one log entry. -/
theorem claimC3 :
    (∀ (behavior : Nat → Nat → JsonBody → AttemptResult) (l : List MatchResult)
       (init : JsonBody) (r : Nat),
       (∀ c ∈ (executeWorkflow behavior l init r).2, c ≤ r + 1) ∧
       ((executeWorkflow behavior l init r).1.logs).length =
         ((executeWorkflow behavior l init r).2).length) ∧
    (∀ (behavior : Nat → Nat → JsonBody → AttemptResult) (m : MatchResult)
       (init : JsonBody) (r : Nat),
       (List.range r).all (fun att => !(isDoneAttempt (behavior 0 att init))) = true →
       isDoneAttempt (behavior 0 r init) = true →
       ∃ fin e, executeWorkflow behavior [m] init r = (.done fin [e], [r + 1]) ∧
         e.success = true ∧ e.step = m.step) := by
  constructor
  · intro behavior l init r
    have h := executeWorkflowGo_logs_counts behavior r l 0 init
    exact ⟨h.2, h.1⟩
  · intro behavior m init r hfail hdone
    have hfail' : ∀ d, d + 1 < r + 1 →
        isDoneAttempt ((fun att => behavior 0 att init) (0 + d)) = false := by
      intro d hd
      have hmem := List.all_eq_true.mp hfail d (List.mem_range.mpr (by omega))
      simp only [Bool.not_eq_true'] at hmem
      simpa using hmem
    have hdone' : isDoneAttempt ((fun att => behavior 0 att init) (0 + (r + 1 - 1))) = true := by
      simpa using hdone
    have hss := execAttemptsGo_success_last (fun att => behavior 0 att init) (r + 1) 0
      { success := false, lastError := "", out := none, statusCode := none, calls := 0 }
      (by omega) hfail' hdone'
    have hsucc : (runStepAttempts (fun att => behavior 0 att init) r).success = true := hss.1
    have hcalls : (runStepAttempts (fun att => behavior 0 att init) r).calls = r + 1 := by
      have h2 : (runStepAttempts (fun att => behavior 0 att init) r).calls = 0 + (r + 1) := hss.2
      simpa using h2
    refine ⟨pipedPayload (runStepAttempts (fun att => behavior 0 att init) r) init,
      stepEntry m (runStepAttempts (fun att => behavior 0 att init) r), ?_, hsucc, rfl⟩
    have h1 := executeWorkflowGo_cons_success behavior r 0 init m [] hsucc
    rw [show executeWorkflow behavior [m] init r = executeWorkflowGo behavior r 0 init [m] from rfl,
      h1, executeWorkflowGo_nil]
    simp [hcalls]

/-- claimC3 witness: with `retryAttempts = 1`, a network error on attempt 0
and a `"DONE"` response on attempt 1 give overall success, two calls, one
log entry. -/
theorem claimC3_witness :
    ((List.range 1).all (fun att => !(isDoneAttempt (wRetryBehavior 0 att wInitPayload))) = true) ∧
    (isDoneAttempt (wRetryBehavior 0 1 wInitPayload) = true) ∧
    (∃ fin e, executeWorkflow wRetryBehavior [wMatchA] wInitPayload 1 = (.done fin [e], [1 + 1]) ∧
      e.success = true ∧ e.step = wMatchA.step) :=
  ⟨rfl, rfl, claimC3.2 wRetryBehavior wMatchA wInitPayload 1 rfl rfl⟩

/-! ### Negotiation-loop lemmas -/

theorem negotiateAttemptsGo_not_ok (behavior : Nat → NegotiationAttempt) :
    ∀ (fuel attempt : Nat) (st : NegState),
      (∀ d, d < fuel → attemptOk (behavior (attempt + d)) = false) →
      st.accepted = false →
      (negotiateAttemptsGo behavior attempt fuel st).accepted = false := by
  intro fuel
  induction fuel with
  | zero => intro attempt st _ hst; exact hst
  | succ fuel ih =>
    intro attempt st hall hst
    have h0 : attemptOk (behavior attempt) = false := by
      have := hall 0 (Nat.succ_pos _)
      rwa [Nat.add_zero] at this
    have hshift : ∀ d, d < fuel → attemptOk (behavior (attempt + 1 + d)) = false := by
      intro d hd
      have heq : attempt + 1 + d = attempt + (d + 1) := by omega
      rw [heq]
      exact hall (d + 1) (Nat.succ_lt_succ hd)
    rw [negotiateAttemptsGo.eq_2]
    cases hb : behavior attempt with
    | response code body =>
      have hok : negotiationOk code body = false := by rw [hb] at h0; exact h0
      simp only [hok, Bool.false_eq_true, if_false]
      exact ih (attempt + 1) _ hshift rfl
    | netError msg =>
      exact ih (attempt + 1) _ hshift hst

theorem negotiateOne_not_ok (behavior : Nat → NegotiationAttempt) (agent : AgentInfo) (r : Nat)
    (h : ∀ att, att ≤ r → attemptOk (behavior att) = false) :
    (negotiateOne behavior agent r).accepted = false := by
  unfold negotiateOne
  exact negotiateAttemptsGo_not_ok behavior (r + 1) 0 _
    (fun d hd => by simpa using h d (Nat.lt_succ_iff.mp hd)) rfl

theorem negotiateAgentsGo_get? (behavior : Nat → Nat → NegotiationAttempt) (r : Nat) :
    ∀ (l : List AgentInfo) (i j : Nat),
      (negotiateAgentsGo behavior r i l).get? j =
        (l.get? j).map (fun a => negotiateOne (behavior (i + j)) a r) := by
  intro l
  induction l with
  | nil => intro i j; simp [negotiateAgentsGo]
  | cons a rest ih =>
    intro i j
    cases j with
    | zero => simp [negotiateAgentsGo]
    | succ j =>
      rw [show (negotiateAgentsGo behavior r i (a :: rest)).get? (j + 1) =
            (negotiateAgentsGo behavior r (i + 1) rest).get? j from rfl,
        ih (i + 1) j]
      have heq : i + 1 + j = i + (j + 1) := by omega
      rw [heq]
      rfl

/-- C1 (amended): an outcome of `negotiateAgents` is recorded as not accepted
when no attempt satisfies the source's acceptance test — an explicit
affirmative signal (accept token or boolean flag) **or a bare HTTP 200
status**.  The original claim fails because a bare 200 with an absent or
ambiguous body is recorded as acceptance (see the counterexample). -/
theorem claimC1_amended (behavior : Nat → Nat → NegotiationAttempt) (agents : List AgentInfo)
    (retryAttempts : Nat) (i : Nat) (a : AgentInfo)
    (hget : agents.get? i = some a)
    (hno : (List.range (retryAttempts + 1)).all
      (fun att => !(attemptOk (behavior i att))) = true) :
    (negotiateAgents behavior agents retryAttempts).get? i =
      some (negotiateOne (behavior i) a retryAttempts) ∧
    (negotiateOne (behavior i) a retryAttempts).accepted = false := by
  have hall : ∀ att, att ≤ retryAttempts → attemptOk (behavior i att) = false := by
    intro att hatt
    have hmem := List.all_eq_true.mp hno att (List.mem_range.mpr (Nat.lt_succ_of_le hatt))
    simp only [Bool.not_eq_true'] at hmem
    exact hmem
  constructor
  · unfold negotiateAgents
    rw [negotiateAgentsGo_get? behavior retryAttempts agents 0 i, hget]
    simp
  · exact negotiateOne_not_ok _ _ _ hall

/-- claimC1_amended witness: a single agent whose one allowed attempt is an
HTTP 404 with a `null` body is recorded as not accepted. -/
theorem claimC1_witness :
    ([agentScan].get? 0 = some agentScan) ∧
    ((List.range (0 + 1)).all (fun att => !(attemptOk (wNegBehavior 0 att))) = true) ∧
    ((negotiateAgents wNegBehavior [agentScan] 0).get? 0 =
        some (negotiateOne (wNegBehavior 0) agentScan 0) ∧
      (negotiateOne (wNegBehavior 0) agentScan 0).accepted = false) :=
  ⟨rfl, rfl, claimC1_amended wNegBehavior [agentScan] 0 0 agentScan rfl rfl⟩

/-! ### Probe-stage lemmas -/

theorem probeCapabilitiesGo_none (behavior : Nat → ProbeAttempt) :
    ∀ (fuel attempt : Nat),
      (∀ d, d < fuel → isProbeSuccess (behavior (attempt + d)) = false) →
      probeCapabilitiesGo behavior attempt fuel = none := by
  intro fuel
  induction fuel with
  | zero => intro attempt _; rfl
  | succ fuel ih =>
    intro attempt hall
    have h0 : isProbeSuccess (behavior attempt) = false := by
      have := hall 0 (Nat.succ_pos _)
      rwa [Nat.add_zero] at this
    have hshift : ∀ d, d < fuel → isProbeSuccess (behavior (attempt + 1 + d)) = false := by
      intro d hd
      have heq : attempt + 1 + d = attempt + (d + 1) := by omega
      rw [heq]
      exact hall (d + 1) (Nat.succ_lt_succ hd)
    rw [probeCapabilitiesGo.eq_2]
    cases hb : behavior attempt with
    | success data => rw [hb] at h0; simp [isProbeSuccess] at h0
    | httpError => exact ih (attempt + 1) hshift
    | netError => exact ih (attempt + 1) hshift

theorem probeStageGo_get? (behavior : Nat → Nat → ProbeAttempt) (r : Nat) :
    ∀ (l : List AgentInfo) (i j : Nat),
      (probeStageGo behavior r i l).get? j =
        (l.get? j).map (fun a => probeAgent (behavior (i + j)) a r) := by
  intro l
  induction l with
  | nil => intro i j; simp [probeStageGo]
  | cons a rest ih =>
    intro i j
    cases j with
    | zero => simp [probeStageGo]
    | succ j =>
      rw [show (probeStageGo behavior r i (a :: rest)).get? (j + 1) =
            (probeStageGo behavior r (i + 1) rest).get? j from rfl,
        ih (i + 1) j]
      have heq : i + 1 + j = i + (j + 1) := by omega
      rw [heq]
      rfl

theorem probeStageGo_length (behavior : Nat → Nat → ProbeAttempt) (r : Nat) :
    ∀ (l : List AgentInfo) (i : Nat), (probeStageGo behavior r i l).length = l.length := by
  intro l
  induction l with
  | nil => intro i; rfl
  | cons a rest ih =>
    intro i
    show (probeStageGo behavior r (i + 1) rest).length + 1 = rest.length + 1
    rw [ih (i + 1)]

/-- C4 (amended): the probing stage of `discoverAgents` satisfies the claim —
exactly one output record per input agent; an agent whose probe never
succeeds within the retry budget passes through unchanged; an agent whose
probe succeeds with a well-formed (array) capability list has its capability
set replaced by the freshly reported values.  The `probeAgents` helper of
src/icma/src/index.ts violates the claim by dropping agents whose probe
fails (see the counterexample). -/
theorem claimC4_amended :
    (∀ (behavior : Nat → Nat → ProbeAttempt) (agents : List AgentInfo) (r : Nat),
       (probeStage behavior agents r).length = agents.length) ∧
    (∀ (behavior : Nat → Nat → ProbeAttempt) (agents : List AgentInfo) (r i : Nat) (a : AgentInfo),
       agents.get? i = some a →
       (List.range (r + 1)).all (fun att => !(isProbeSuccess (behavior i att))) = true →
       (probeStage behavior agents r).get? i = some a) ∧
    (∀ (behavior : Nat → Nat → ProbeAttempt) (agents : List AgentInfo) (r i : Nat) (a : AgentInfo)
       (data : ProbeBody) (caps : List String),
       agents.get? i = some a →
       probeCapabilities (behavior i) r = some data →
       data.capabilities = some caps →
       (probeStage behavior agents r).get? i =
         some { id := a.id, name := jsOrOptStr data.name a.name, endpoint := a.endpoint,
                capabilities := caps }) := by
  refine ⟨?_, ?_, ?_⟩
  · intro behavior agents r
    exact probeStageGo_length behavior r agents 0
  · intro behavior agents r i a hget hfail
    have hnone : probeCapabilities (behavior i) r = none := by
      unfold probeCapabilities
      refine probeCapabilitiesGo_none (behavior i) (r + 1) 0 ?_
      intro d hd
      have hmem := List.all_eq_true.mp hfail d (List.mem_range.mpr hd)
      simp only [Bool.not_eq_true'] at hmem
      simpa using hmem
    unfold probeStage
    rw [probeStageGo_get? behavior r agents 0 i, hget]
    simp only [Option.map_some', Nat.zero_add]
    unfold probeAgent
    rw [hnone]
  · intro behavior agents r i a data caps hget hsome hcaps
    unfold probeStage
    rw [probeStageGo_get? behavior r agents 0 i, hget]
    simp only [Option.map_some', Nat.zero_add]
    unfold probeAgent
    rw [hsome]
    show some (match data.capabilities with
      | some caps =>
        ({ id := a.id, name := jsOrOptStr data.name a.name, endpoint := a.endpoint,
           capabilities := caps } : AgentInfo)
      | none => a) =
      some { id := a.id, name := jsOrOptStr data.name a.name, endpoint := a.endpoint,
             capabilities := caps }
    rw [hcaps]

/-- claimC4_amended witness: agent 0's probe succeeds and its capability set
is replaced; agent 1's probes all fail and it passes through unchanged. -/
theorem claimC4_witness :
    ([agentScan, agentReport].get? 1 = some agentReport) ∧
    ((List.range (1 + 1)).all (fun att => !(isProbeSuccess (wProbeBehavior 1 att))) = true) ∧
    ((probeStage wProbeBehavior [agentScan, agentReport] 1).get? 1 = some agentReport) ∧
    ([agentScan, agentReport].get? 0 = some agentScan) ∧
    (probeCapabilities (wProbeBehavior 0) 1 =
      some { name := some "FreshName", capabilities := some ["wallet_scan"] }) ∧
    ((probeStage wProbeBehavior [agentScan, agentReport] 1).get? 0 =
      some { id := agentScan.id,
             name := jsOrOptStr (some "FreshName") agentScan.name,
             endpoint := agentScan.endpoint, capabilities := ["wallet_scan"] }) :=
  ⟨rfl, rfl,
   claimC4_amended.2.1 wProbeBehavior [agentScan, agentReport] 1 1 agentReport rfl rfl,
   rfl, rfl,
   claimC4_amended.2.2 wProbeBehavior [agentScan, agentReport] 1 0 agentScan
     { name := some "FreshName", capabilities := some ["wallet_scan"] } ["wallet_scan"]
     rfl rfl rfl⟩

/-! ### Deduplication lemmas (JS `Map` invariant) -/

theorem lastWithId_append_one (processed : List AgentInfo) (a : AgentInfo) (k : String) :
    lastWithId (processed ++ [a]) k =
      if a.id == k then some a else lastWithId processed k := by
  unfold lastWithId
  rw [List.reverse_append]
  simp only [List.reverse_cons, List.reverse_nil, List.nil_append, List.singleton_append]
  cases hak : (a.id == k) with
  | true =>
    rw [List.find?_cons_of_pos (p := fun x : AgentInfo => x.id == k) _ hak]
    simp
  | false =>
    rw [List.find?_cons_of_neg (p := fun x : AgentInfo => x.id == k) _
      (fun hc => Bool.false_ne_true (hak ▸ hc))]
    simp

/-- Invariant of the JS `Map` built by the dedup loop: keys are distinct, every
key is the id of a processed record, and every key maps to the last processed
record carrying it. -/
structure MapInv (processed : List AgentInfo) (m : List (String × AgentInfo)) : Prop where
  nodup : (m.map Prod.fst).Nodup
  keysSub : ∀ p ∈ m, p.1 ∈ processed.map AgentInfo.id
  lastWins : ∀ p ∈ m, lastWithId processed p.1 = some p.2

theorem map_fst_update (m : List (String × AgentInfo)) (a : AgentInfo) :
    ((m.map (fun p => if p.1 == a.id then (p.1, a) else p)).map Prod.fst) = m.map Prod.fst := by
  induction m with
  | nil => rfl
  | cons p t ih =>
    cases hpk : (p.1 == a.id) with
    | true => simp only [List.map_cons, hpk, if_true, ih]
    | false => simp only [List.map_cons, hpk, Bool.false_eq_true, if_false, ih]

theorem mapInv_set (processed : List AgentInfo) (m : List (String × AgentInfo)) (a : AgentInfo)
    (h : MapInv processed m) : MapInv (processed ++ [a]) (jsMapSet m a.id a) := by
  unfold jsMapSet
  cases hc : (m.map Prod.fst).contains a.id with
  | true =>
    rw [if_pos rfl]
    refine ⟨?_, ?_, ?_⟩
    · rw [map_fst_update]
      exact h.nodup
    · intro p' hp'
      obtain ⟨p, hp, hfp⟩ := List.mem_map.mp hp'
      have hfst : p'.1 = p.1 := by
        rw [← hfp]
        split <;> rfl
      rw [hfst, List.map_append]
      exact List.mem_append_left _ (h.keysSub p hp)
    · intro p' hp'
      obtain ⟨p, hp, hfp⟩ := List.mem_map.mp hp'
      rw [lastWithId_append_one]
      cases hpk : (p.1 == a.id) with
      | true =>
        have hkey : p.1 = a.id := by simpa using hpk
        have hfp' : p' = (p.1, a) := by rw [← hfp]; simp [hpk]
        rw [hfp']
        have hbeq : (a.id == p.1) = true := by simpa using hkey.symm
        simp [hbeq]
      | false =>
        have hkey : p.1 ≠ a.id := by simpa using hpk
        have hfp' : p' = p := by rw [← hfp]; simp [hpk]
        rw [hfp']
        have hbeq : (a.id == p.1) = false := by
          simp only [beq_eq_false_iff_ne]
          exact Ne.symm hkey
        simp only [hbeq, Bool.false_eq_true, if_false]
        exact h.lastWins p hp
  | false =>
    rw [if_neg Bool.false_ne_true]
    have hnotmem : a.id ∉ m.map Prod.fst := by
      intro hmem
      have h2 : (m.map Prod.fst).contains a.id = true := List.elem_eq_true_of_mem hmem
      rw [hc] at h2
      exact Bool.false_ne_true h2
    refine ⟨?_, ?_, ?_⟩
    · rw [List.map_append, List.map_cons, List.map_nil, List.nodup_append]
      refine ⟨h.nodup, List.nodup_singleton _, ?_⟩
      intro x hx hx'
      simp only [List.mem_singleton] at hx'
      rw [hx'] at hx
      exact hnotmem hx
    · intro p' hp'
      rcases List.mem_append.mp hp' with hp | hp
      · rw [List.map_append]
        exact List.mem_append_left _ (h.keysSub p' hp)
      · simp only [List.mem_singleton] at hp
        rw [hp, List.map_append]
        apply List.mem_append_right
        simp
    · intro p' hp'
      rcases List.mem_append.mp hp' with hp | hp
      · rw [lastWithId_append_one]
        have hkeym : p'.1 ∈ m.map Prod.fst := List.mem_map_of_mem Prod.fst hp
        have hbeq : (a.id == p'.1) = false := by
          simp only [beq_eq_false_iff_ne]
          intro hcc
          rw [hcc] at hnotmem
          exact hnotmem hkeym
        simp only [hbeq, Bool.false_eq_true, if_false]
        exact h.lastWins p' hp
      · simp only [List.mem_singleton] at hp
        rw [hp, lastWithId_append_one]
        simp

theorem mapInv_foldl (l : List AgentInfo) :
    ∀ (processed : List AgentInfo) (m : List (String × AgentInfo)),
      MapInv processed m →
      MapInv (processed ++ l) (l.foldl (fun acc x => jsMapSet acc x.id x) m) := by
  induction l with
  | nil =>
    intro processed m h
    simpa using h
  | cons a t ih =>
    intro processed m h
    have h2 := ih (processed ++ [a]) (jsMapSet m a.id a) (mapInv_set processed m a h)
    have heq : processed ++ [a] ++ t = processed ++ (a :: t) := by
      rw [List.append_assoc, List.singleton_append]
    rw [heq] at h2
    exact h2

theorem mapInv_nil : MapInv [] [] :=
  ⟨List.nodup_nil, fun p hp => absurd hp (List.not_mem_nil p),
   fun p hp => absurd hp (List.not_mem_nil p)⟩

theorem dedupById_mapInv (l : List AgentInfo) :
    MapInv l (l.foldl (fun acc x => jsMapSet acc x.id x) []) := by
  have h := mapInv_foldl l [] [] mapInv_nil
  simpa using h

theorem probeAgent_id (behavior : Nat → ProbeAttempt) (a : AgentInfo) (r : Nat) :
    (probeAgent behavior a r).id = a.id := by
  unfold probeAgent
  cases h : probeCapabilities behavior r with
  | none => simp [h]
  | some data =>
    simp only [h]
    cases hcaps : data.capabilities with
    | none => simp [hcaps]
    | some caps => simp [hcaps]

theorem probeStageGo_ids (behavior : Nat → Nat → ProbeAttempt) (r : Nat) :
    ∀ (l : List AgentInfo) (i : Nat),
      (probeStageGo behavior r i l).map AgentInfo.id = l.map AgentInfo.id := by
  intro l
  induction l with
  | nil => intro i; rfl
  | cons a rest ih =>
    intro i
    show (probeAgent (behavior i) a r).id :: (probeStageGo behavior r (i + 1) rest).map AgentInfo.id =
      a.id :: rest.map AgentInfo.id
    rw [probeAgent_id, ih (i + 1)]

theorem probeStage_ids (behavior : Nat → Nat → ProbeAttempt) (agents : List AgentInfo) (r : Nat) :
    (probeStage behavior agents r).map AgentInfo.id = agents.map AgentInfo.id :=
  probeStageGo_ids behavior r agents 0

/-- C5: on a non-empty probe result, the deduplicated output of the probing
stage has: (a) every id among the input population's ids, (b) no duplicate
ids, and (c) for each retained record, that record is the most recently
probed one with its id (last wins). -/
theorem claimC5 (behavior : Nat → Nat → ProbeAttempt) (agents : List AgentInfo) (r : Nat)
    (hne : probeStage behavior agents r ≠ []) :
    (∀ x ∈ dedupById (probeStage behavior agents r), x.id ∈ agents.map AgentInfo.id) ∧
    ((dedupById (probeStage behavior agents r)).map AgentInfo.id).Nodup ∧
    (∀ x ∈ dedupById (probeStage behavior agents r),
      lastWithId (probeStage behavior agents r) x.id = some x) := by
  have hInv := dedupById_mapInv (probeStage behavior agents r)
  have hkeyval : ∀ p ∈ (probeStage behavior agents r).foldl
      (fun acc x => jsMapSet acc x.id x) [], p.2.id = p.1 := by
    intro p hp
    have hlast := hInv.lastWins p hp
    unfold lastWithId at hlast
    have := List.find?_some hlast
    simpa using this
  refine ⟨?_, ?_, ?_⟩
  · intro x hx
    obtain ⟨p, hp, hsnd⟩ := List.mem_map.mp hx
    have h1 : x.id = p.1 := by rw [← hsnd]; exact hkeyval p hp
    rw [h1]
    have h2 := hInv.keysSub p hp
    rw [probeStage_ids behavior agents r] at h2
    exact h2
  · have hmapeq : (dedupById (probeStage behavior agents r)).map AgentInfo.id =
        ((probeStage behavior agents r).foldl (fun acc x => jsMapSet acc x.id x) []).map
          Prod.fst := by
      unfold dedupById
      rw [List.map_map]
      exact List.map_congr_left (fun p hp => hkeyval p hp)
    rw [hmapeq]
    exact hInv.nodup
  · intro x hx
    obtain ⟨p, hp, hsnd⟩ := List.mem_map.mp hx
    have h1 : x.id = p.1 := by rw [← hsnd]; exact hkeyval p hp
    rw [h1, ← hsnd]
    exact hInv.lastWins p hp

/-- claimC5 witness: two probed records share the id `"a1"` (all probes fail,
so records pass through); the dedup keeps the later record. -/
theorem claimC5_witness :
    (probeStage wProbeAllFail [agentScan, agentScanV2, agentReport] 0 ≠ []) ∧
    ((∀ x ∈ dedupById (probeStage wProbeAllFail [agentScan, agentScanV2, agentReport] 0),
        x.id ∈ [agentScan, agentScanV2, agentReport].map AgentInfo.id) ∧
      ((dedupById (probeStage wProbeAllFail [agentScan, agentScanV2, agentReport] 0)).map
          AgentInfo.id).Nodup ∧
      (∀ x ∈ dedupById (probeStage wProbeAllFail [agentScan, agentScanV2, agentReport] 0),
        lastWithId (probeStage wProbeAllFail [agentScan, agentScanV2, agentReport] 0) x.id =
          some x)) :=
  ⟨by decide, claimC5 wProbeAllFail [agentScan, agentScanV2, agentReport] 0 (by decide)⟩

/-! ### Registry-loader lemmas -/

theorem map_some_all_isSome : ∀ es : List RawEntry, ((es.map some).all Option.isSome) = true := by
  intro es
  induction es with
  | nil => rfl
  | cons e t ih => simp [ih]

theorem filterMap_map_some (f : RawEntry → AgentDescriptor) :
    ∀ es : List RawEntry, ((es.map some).filterMap (fun oe => oe.map f)) = es.map f := by
  intro es
  induction es with
  | nil => rfl
  | cons e t ih => simp [ih]

/-- C7 (amended): both registry loaders return the empty sequence — without
raising — on network/parse failure, a non-success HTTP status, a non-array
payload, and an empty list.  Entries missing a (truthy) identifier or address
are dropped only by the `discoverAgents` loader's normalization (every output
agent comes from an entry passing the id/address filter); `loadAgentRegistry`
of src/icma/src/index.ts instead keeps one descriptor per array entry,
carrying the missing fields through as `undefined` (see the
counterexample). -/
theorem claimC7_amended :
    (loadRegistryStage .fetchError = [] ∧ loadRegistryStage .httpError = [] ∧
      loadRegistryStage (.payload .nonArray) = [] ∧
      loadRegistryStage (.payload (.arr [])) = []) ∧
    (loadAgentRegistry .fetchError = [] ∧ loadAgentRegistry .httpError = [] ∧
      loadAgentRegistry (.payload .nonArray) = [] ∧
      loadAgentRegistry (.payload (.arr [])) = []) ∧
    (∀ (entries : List (Option RawEntry)) (a : AgentInfo),
       a ∈ normalizeRegistry entries →
       ∃ e, some e ∈ entries ∧ entryKeep (some e) = true ∧ a = normalizeEntry e) ∧
    (∀ es : List RawEntry,
       (loadAgentRegistry (.payload (.arr (es.map some)))).length = es.length) := by
  refine ⟨⟨rfl, rfl, rfl, rfl⟩, ⟨rfl, rfl, rfl, rfl⟩, ?_, ?_⟩
  · intro entries a ha
    unfold normalizeRegistry at ha
    obtain ⟨oe, hoe, hmap⟩ := List.mem_filterMap.mp ha
    obtain ⟨e, hoe2, hea⟩ := Option.map_eq_some'.mp hmap
    have hfil := List.mem_filter.mp hoe
    refine ⟨e, ?_, ?_, hea.symm⟩
    · rw [← hoe2]
      exact hfil.1
    · rw [← hoe2]
      exact hfil.2
  · intro es
    simp only [loadAgentRegistry]
    rw [if_pos (map_some_all_isSome es), filterMap_map_some]
    simp

/-- claimC7_amended witness: a registry with one good and one bad entry; the
good entry's agent is produced by a kept entry. -/
theorem claimC7_witness :
    (normalizeEntry wRawGood ∈ normalizeRegistry [some wRawGood, some cexRawNoId]) ∧
    (∃ e, some e ∈ [some wRawGood, some cexRawNoId] ∧ entryKeep (some e) = true ∧
      normalizeEntry wRawGood = normalizeEntry e) :=
  ⟨by
    rw [show normalizeRegistry [some wRawGood, some cexRawNoId] = [normalizeEntry wRawGood]
      from rfl]
    exact List.mem_singleton.mpr rfl,
   claimC7_amended.2.2.1 [some wRawGood, some cexRawNoId] (normalizeEntry wRawGood)
     (by
       rw [show normalizeRegistry [some wRawGood, some cexRawNoId] = [normalizeEntry wRawGood]
         from rfl]
       exact List.mem_singleton.mpr rfl)⟩

/-! ### Orchestrator coverage lemmas -/

/-- C8 (amended): in the orchestrator endpoint, a required step with zero
qualifying agents makes the run return the missing-steps error before either
`negotiateAgents` or `executeWorkflow` is invoked (both invocation flags are
`false`).  In the first worker's per-step loop the check is lazy: if the
*first* step has zero qualifying candidates nothing is invoked, but when an
unmatched step is preceded by matched steps their agents are negotiated and
executed first (see the counterexample). -/
theorem claimC8_amended :
    (∀ (agents : List AgentInfo) (steps : List String)
       (negBehavior : Nat → Nat → NegotiationAttempt)
       (execBehavior : Nat → Nat → JsonBody → AttemptResult) (initialPayload : JsonBody),
       steps.any (fun s => !(agents.any (fun a => a.capabilities.contains s))) = true →
       ∃ missing, orchestrateExecute agents steps negBehavior execBehavior initialPayload =
           (.missingSteps missing, false, false) ∧ missing ≠ []) ∧
    (∀ (probed : List AgentProbe) (envDomain : Option String)
       (negOracle : Nat → NegotiateAgentAttempt) (execOracle : Nat → Nat → ExecAttempt)
       (step1 : WorkflowStep) (rest : List WorkflowStep),
       candidatesFor probed step1.capability = [] →
       runWorkflowLoop probed envDomain negOracle execOracle (step1 :: rest) =
         (.failed ("No agent found with capability \"" ++ step1.capability ++ "\""), 0, 0)) := by
  constructor
  · intro agents steps negBehavior execBehavior initialPayload hany
    obtain ⟨s, hs, hsno⟩ := List.any_eq_true.mp hany
    have hnoagent : (agents.any (fun a => a.capabilities.contains s)) = false := by
      simpa using hsno
    have hnomatch : ∀ m ∈ matchCapabilities agents steps none, ¬(m.step = s) := by
      intro m hm hcontra
      unfold matchCapabilities at hm
      obtain ⟨s', hs', hmap⟩ := List.mem_filterMap.mp hm
      obtain ⟨a, hsel, hma⟩ := Option.map_eq_some'.mp hmap
      have hstep : m.step = s' := by rw [← hma]
      have hseq : s' = s := by rw [← hstep, hcontra]
      rw [hseq] at hsel
      have hamem : a ∈ agents := by
        simp only [selectCandidate] at hsel
        exact List.mem_of_find?_eq_some hsel
      have hacontains : a.capabilities.contains s = true :=
        selectCandidate_contains agents none s a hsel
      have : (agents.any (fun x => x.capabilities.contains s)) = true :=
        List.any_eq_true.mpr ⟨a, hamem, hacontains⟩
      rw [hnoagent] at this
      exact Bool.false_ne_true this
    have hanyfalse : ((matchCapabilities agents steps none).any (fun m => m.step == s)) = false := by
      rw [Bool.eq_false_iff]
      intro hc
      obtain ⟨m, hm, hmbeq⟩ := List.any_eq_true.mp hc
      exact hnomatch m hm (by simpa using hmbeq)
    have hsmem : s ∈ steps.filter
        (fun s' => !((matchCapabilities agents steps none).any (fun m => m.step == s'))) := by
      refine List.mem_filter.mpr ⟨hs, ?_⟩
      simp [hanyfalse]
    have hne : steps.filter
        (fun s' => !((matchCapabilities agents steps none).any (fun m => m.step == s'))) ≠ [] :=
      List.ne_nil_of_mem hsmem
    refine ⟨steps.filter
      (fun s' => !((matchCapabilities agents steps none).any (fun m => m.step == s'))), ?_, hne⟩
    simp only [orchestrateExecute]
    rw [if_neg (fun hx => hne (List.isEmpty_iff.mp hx))]
  · intro probed envDomain negOracle execOracle step1 rest h
    unfold runWorkflowLoop
    rw [runWorkflowLoopGo.eq_2]
    simp [h]

/-- claimC8_amended witness: a population with only the scan capability makes
the report step unmatched; the orchestrator reports it with both invocation
flags false, and the first worker's loop with an unmatched first step invokes
nothing. -/
theorem claimC8_witness :
    (["wallet_scan", "generate_report"].any
        (fun s => !([agentScan].any (fun a => a.capabilities.contains s))) = true) ∧
    (∃ missing, orchestrateExecute [agentScan] ["wallet_scan", "generate_report"]
        wNegDownOracle wNonDoneBehavior wInitPayload = (.missingSteps missing, false, false) ∧
      missing ≠ []) ∧
    (candidatesFor [] (WorkflowStep.mk "analyze_wallet" "wallet_scan").capability = []) ∧
    (runWorkflowLoop [] none cexNegOracle cexExecOracle
        [{ step := "analyze_wallet", capability := "wallet_scan" }] =
      (.failed ("No agent found with capability \"" ++ "wallet_scan" ++ "\""), 0, 0)) :=
  ⟨rfl,
   claimC8_amended.1 [agentScan] ["wallet_scan", "generate_report"]
     wNegDownOracle wNonDoneBehavior wInitPayload rfl,
   rfl,
   claimC8_amended.2 [] none cexNegOracle cexExecOracle
     { step := "analyze_wallet", capability := "wallet_scan" } [] rfl⟩

/-- claimC9 witness: the scan step's assignment goes to an agent advertising
`"wallet_scan"`. -/
theorem claimC9_witness :
    (({ step := "wallet_scan", agent := agentScan } : MatchResult) ∈
      matchCapabilities [agentScan, agentReport] ["wallet_scan"] none) ∧
    (({ step := "wallet_scan", agent := agentScan } : MatchResult).agent.capabilities.contains
      ({ step := "wallet_scan", agent := agentScan } : MatchResult).step = true) :=
  ⟨by decide,
   claimC9 [agentScan, agentReport] ["wallet_scan"] none
     { step := "wallet_scan", agent := agentScan } (by decide)⟩
